import Mathlib

/-!
Verification of the JSONC-aware schema validation engine of
`tools/validate_schema.py`.

Texts are modelled as `List Char` (Python strings are character sequences).
Each definition is a direct translation of the corresponding Python function;
the state machine of `strip_jsonc_comments` (states 0 = normal, 1 = in string,
2 = escape, plus the two inner comment-consuming loops) is made explicit as
an inductive state type.
-/

namespace MaaValidate

/-- States of the scanner in `strip_jsonc_comments`.  Python uses
`state = 0/1/2` for `normal`/`inString`/`escape`; the two inner `while`
loops that consume a line comment resp. a block comment are represented
as the extra states `lineComment` and `blockComment`. -/
inductive StripState
  | normal
  | inString
  | escape
  | lineComment
  | blockComment
deriving DecidableEq

/-- The scanner loop of `strip_jsonc_comments` (validate_schema.py, lines
28-68), one step per consumed character.

* `normal`: `"` is emitted and enters the string state; `//` starts a line
  comment; `/*` starts a block comment; anything else is emitted verbatim.
* `inString`: every character is emitted; `\` enters `escape`, `"` returns
  to `normal`.
* `escape`: the character is emitted and the state returns to `inString`.
* `lineComment`: characters are dropped until a newline, which is emitted
  (Python: `while i < len(text) and text[i] != "\n"` then re-append `"\n"`).
* `blockComment`: the loop guard is `i + 1 < len(text) and
  text[i:i+2] != "*/"`, so a character is examined only while at least two
  characters remain; newlines inside the comment are re-emitted; when fewer
  than two characters remain the loop stops and `i += 2` skips past the end,
  so a single remaining character is dropped unexamined. -/
def stripGo : StripState → List Char → List Char
  | .normal, [] => []
  | .normal, '"' :: r => '"' :: stripGo .inString r
  | .normal, '/' :: '/' :: r => stripGo .lineComment r
  | .normal, '/' :: '*' :: r => stripGo .blockComment r
  | .normal, c :: r => c :: stripGo .normal r
  | .inString, [] => []
  | .inString, '\\' :: r => '\\' :: stripGo .escape r
  | .inString, '"' :: r => '"' :: stripGo .normal r
  | .inString, c :: r => c :: stripGo .inString r
  | .escape, [] => []
  | .escape, c :: r => c :: stripGo .inString r
  | .lineComment, [] => []
  | .lineComment, '\n' :: r => '\n' :: stripGo .normal r
  | .lineComment, _ :: r => stripGo .lineComment r
  | .blockComment, '*' :: '/' :: r => stripGo .normal r
  | .blockComment, '\n' :: c :: r => '\n' :: stripGo .blockComment (c :: r)
  | .blockComment, _ :: c :: r => stripGo .blockComment (c :: r)
  | .blockComment, _ => []

/-- `strip_jsonc_comments(text)` (validate_schema.py, lines 23-70): the
scanner started in the normal state. -/
def strip_jsonc_comments (text : List Char) : List Char := stripGo .normal text

/-- A character sequence that can form the body of a double-quoted string
literal under the scanner's escape discipline: it contains no unescaped
`"` (a backslash escapes exactly the next character) and does not end in
a dangling backslash. -/
def strBody : List Char → Bool
  | [] => true
  | '"' :: _ => false
  | '\\' :: [] => false
  | '\\' :: _ :: r => strBody r
  | _ :: r => strBody r

theorem count_lift (c : Char) {x r : List Char}
    (h : x.count '\n' = r.count '\n' ∨
      ∃ l', r = l' ++ ['\n'] ∧ x.count '\n' + 1 = r.count '\n') :
    (c :: x).count '\n' = (c :: r).count '\n' ∨
      ∃ l', c :: r = l' ++ ['\n'] ∧ (c :: x).count '\n' + 1 = (c :: r).count '\n' := by
  rcases h with h | ⟨l', rfl, h⟩
  · left; simp [List.count_cons, h]
  · right
    refine ⟨c :: l', rfl, ?_⟩
    simp only [List.count_cons]
    omega

theorem count_skip {c : Char} (hc : ¬ c = '\n') {x r : List Char}
    (h : x.count '\n' = r.count '\n' ∨
      ∃ l', r = l' ++ ['\n'] ∧ x.count '\n' + 1 = r.count '\n') :
    x.count '\n' = (c :: r).count '\n' ∨
      ∃ l', c :: r = l' ++ ['\n'] ∧ x.count '\n' + 1 = (c :: r).count '\n' := by
  have hb : (c == '\n') = false := by simp [hc]
  rcases h with h | ⟨l', rfl, h⟩
  · left; simp [List.count_cons, hb, h]
  · right
    refine ⟨c :: l', rfl, ?_⟩
    simp [List.count_cons, hb] at h ⊢
    omega

/-- From any scanner state, the output's newline count equals the input's,
except that the single unexamined character at the end of an unterminated
block comment may silently drop one trailing newline. -/
theorem stripGo_count_newlines (s : StripState) (l : List Char) :
    (stripGo s l).count '\n' = l.count '\n' ∨
      ∃ l', l = l' ++ ['\n'] ∧ (stripGo s l).count '\n' + 1 = l.count '\n' := by
  induction s, l using stripGo.induct with
  | case1 => left; rfl
  | case2 r ih => simp only [stripGo]; exact count_lift _ ih
  | case3 r ih =>
    simp only [stripGo]
    exact count_skip (by decide) (count_skip (by decide) ih)
  | case4 r ih =>
    simp only [stripGo]
    exact count_skip (by decide) (count_skip (by decide) ih)
  | case5 c r h1 h2 h3 ih =>
    simp only [stripGo, h1, h2, h3]
    exact count_lift _ ih
  | case6 => left; rfl
  | case7 r ih => simp only [stripGo]; exact count_lift _ ih
  | case8 r ih => simp only [stripGo]; exact count_lift _ ih
  | case9 c r h1 h2 ih =>
    simp only [stripGo, h1, h2]
    exact count_lift _ ih
  | case10 => left; rfl
  | case11 c r ih => simp only [stripGo]; exact count_lift _ ih
  | case12 => left; rfl
  | case13 r ih => simp only [stripGo]; exact count_lift _ ih
  | case14 c r h1 ih =>
    simp only [stripGo, h1]
    exact count_skip (fun h => h1 h) ih
  | case15 r ih =>
    simp only [stripGo]
    exact count_skip (by decide) (count_skip (by decide) ih)
  | case16 c r ih =>
    simp only [stripGo]
    exact count_lift _ ih
  | case17 c1 c2 r h1 h2 ih =>
    simp only [stripGo, h1, h2]
    exact count_skip (fun h => h2 h) ih
  | case18 t h1 h2 h3 =>
    match t, h1, h2, h3 with
    | [], _, _, _ => left; rfl
    | [c], _, _, _ =>
      by_cases hc : c = '\n'
      · subst hc
        right
        exact ⟨[], rfl, by simp [stripGo]⟩
      · left
        simp [stripGo, List.count_cons, hc]
    | c1 :: c2 :: r, _, _, h3 => exact absurd rfl (h3 c1 c2 r)

/-- From the in-string state, a properly escaped string body followed by the
closing quote is copied verbatim, after which scanning resumes in the
normal state. -/
theorem stripGo_inString_append (body rest : List Char) (h : strBody body = true) :
    stripGo .inString (body ++ '"' :: rest) = body ++ '"' :: stripGo .normal rest := by
  induction body using strBody.induct with
  | case1 => simp [stripGo]
  | case2 r => simp [strBody] at h
  | case3 => simp [strBody] at h
  | case4 c r ih =>
    simp only [strBody] at h
    simp only [List.cons_append, stripGo, List.append_eq]
    rw [ih h]
  | case5 c r hne1 hne2 hne3 ih =>
    have hbs : ¬ c = '\\' := by
      intro hc
      cases r with
      | nil => exact hne2 hc rfl
      | cons a t => exact hne3 a t hc rfl
    simp only [strBody, hne1, hbs] at h
    simp only [List.cons_append, stripGo, List.append_eq, hbs, hne1]
    rw [ih h]

/-- C1, counterexample: the claim promises the newline count is preserved
"including when the input ends inside an unterminated block comment", but
on the input `/*<newline>` the block-comment loop of
`strip_jsonc_comments` (guard `i + 1 < len(text)`) never examines the final
newline, so the output is empty and one newline is lost. -/
theorem C1_newline_counterexample :
    ¬ ((strip_jsonc_comments ['/', '*', '\n']).count '\n' =
        (['/', '*', '\n'] : List Char).count '\n') := by decide

/-- C1, amended: for every input text, the output of `strip_jsonc_comments`
has exactly as many newline characters as the input, or else the input's
last character is a newline and the output has exactly one newline fewer
(the loss occurs only when the input ends inside an unterminated block
comment whose final character is a newline). -/
theorem C1_newline_invariant (l : List Char) :
    (strip_jsonc_comments l).count '\n' = l.count '\n' ∨
      ∃ l', l = l' ++ ['\n'] ∧
        (strip_jsonc_comments l).count '\n' + 1 = l.count '\n' :=
  stripGo_count_newlines .normal l

/-- C4: a comment-like substring occurring inside a properly quoted,
properly escaped string literal is emitted unchanged by
`strip_jsonc_comments`: upon the opening quote the scanner copies the
body verbatim (with the one-character escape state) up to the closing
unescaped quote, and only then resumes normal scanning. -/
theorem C4_string_transparency (body rest : List Char) (h : strBody body = true) :
    stripGo .normal ('"' :: body ++ '"' :: rest) =
      '"' :: body ++ '"' :: stripGo .normal rest := by
  simp only [List.cons_append, stripGo]
  exact congrArg _ (stripGo_inString_append body rest h)

/-- Witness for C4: a string literal whose body contains both `//` and `/*`
(and an escaped quote) passes through the stripper verbatim. -/
theorem C4_string_transparency_witness :
    stripGo .normal
        (['"', '/', '/', 'a', '/', '*', '\\', '"', 'b', '"'] : List Char) =
      ['"', '/', '/', 'a', '/', '*', '\\', '"', 'b', '"'] := by
  have h := C4_string_transparency ['/', '/', 'a', '/', '*', '\\', '"', 'b'] []
    (by decide)
  simpa using h

/-! ### Draft selector (`get_validator_class`, lines 93-103) -/

/-- Python's substring test `needle in hay` on character sequences. -/
def containsSub (needle : List Char) : List Char → Bool
  | [] => needle.isEmpty
  | c :: t => needle.isPrefixOf (c :: t) || containsSub needle t

/-- The characters of the dialect fragment `draft-07`. -/
def draft07Chars : List Char := ['d', 'r', 'a', 'f', 't', '-', '0', '7']

/-- The characters of the dialect fragment `draft/07`. -/
def draftSlash07Chars : List Char := ['d', 'r', 'a', 'f', 't', '/', '0', '7']

/-- The characters of the dialect fragment `2020-12`. -/
def chars2020 : List Char := ['2', '0', '2', '0', '-', '1', '2']

/-- The two validator classes the tool can select. -/
inductive ValidatorKind
  | Draft7Validator
  | Draft202012Validator
deriving DecidableEq

/-- The schema's `$schema` field contains a draft-07 identifier substring
(the code accepts the two variants `draft-07` and `draft/07`). -/
def hasDraft07 (uri : List Char) : Bool :=
  containsSub draft07Chars uri || containsSub draftSlash07Chars uri

/-- `get_validator_class(schema)` (lines 93-103): `schema.get("$schema", "")`
is modelled as `Option` with default `[]`; the function tests the draft-07
substrings first, then `2020-12`, then defaults to the 2020-12 class. -/
def get_validator_class (schemaField : Option (List Char)) : ValidatorKind :=
  let uri := schemaField.getD []
  if hasDraft07 uri then .Draft7Validator
  else if containsSub chars2020 uri then .Draft202012Validator
  else .Draft202012Validator

/-- C3: the draft-07 class is selected exactly when `$schema` contains a
draft-07 identifier substring; a `$schema` containing `2020-12` (and no
draft-07 fragment, the branches being tested in that order) selects the
2020-12 class; an absent `$schema` or one matching neither also selects
the 2020-12 class. -/
theorem C3_draft_dispatch (s : Option (List Char)) :
    (get_validator_class s = .Draft7Validator ↔ hasDraft07 (s.getD []) = true) ∧
    (containsSub chars2020 (s.getD []) = true → hasDraft07 (s.getD []) = false →
      get_validator_class s = .Draft202012Validator) ∧
    (s = none → get_validator_class s = .Draft202012Validator) ∧
    (hasDraft07 (s.getD []) = false →
      get_validator_class s = .Draft202012Validator) := by
  refine ⟨?_, ?_, ?_, ?_⟩
  · unfold get_validator_class
    rcases hb : hasDraft07 (s.getD []) with _ | _ <;> simp [hb]
  · intro h2 h7
    unfold get_validator_class
    simp [h7, h2]
  · rintro rfl
    decide
  · intro h7
    unfold get_validator_class
    simp [h7]

/-- Witness for C3: a draft-07 URI selects `Draft7Validator`, a 2020-12 URI
and an absent `$schema` select `Draft202012Validator`. -/
theorem C3_draft_dispatch_witness :
    get_validator_class (some draft07Chars) = .Draft7Validator ∧
    get_validator_class (some chars2020) = .Draft202012Validator ∧
    get_validator_class none = .Draft202012Validator :=
  ⟨(C3_draft_dispatch (some draft07Chars)).1.mpr (by decide),
   (C3_draft_dispatch (some chars2020)).2.1 (by decide) (by decide),
   (C3_draft_dispatch none).2.2.1 rfl⟩

/-! ### Line locator (`find_line_number`, lines 106-138) -/

/-- Python's `str.split("/")` on a character sequence. -/
def splitSlash : List Char → List (List Char)
  | [] => [[]]
  | '/' :: r => [] :: splitSlash r
  | c :: r =>
    match splitSlash r with
    | [] => [[c]]
    | s :: ss => (c :: s) :: ss

/-- The nonempty segments of the pointer path
(`[p for p in json_path.split("/") if p]`). -/
def pathParts (json_path : List Char) : List (List Char) :=
  (splitSlash json_path).filter (fun p => !p.isEmpty)

/-- The ASCII characters matched by the regex class `\s`. -/
def isSpaceChar (c : Char) : Bool :=
  c = ' ' || c = '\t' || c = '\n' || c = '\r' || c = '\x0b' || c = '\x0c'

/-- After the closing quote of the key the regex continues with `\s*:`:
optional whitespace followed by a colon. -/
def wsColon : List Char → Bool
  | [] => false
  | c :: r => if c = ':' then true else if isSpaceChar c then wsColon r else false

/-- Strips an expected literal prefix, returning the remainder on success. -/
def dropPref : List Char → List Char → Option (List Char)
  | [], l => some l
  | _ :: _, [] => none
  | p :: ps, c :: cs => if p = c then dropPref ps cs else none

/-- The regex `"<key>"\s*:` (with `re.escape`, so `key` is literal)
matches at the start of `l`. -/
def matchAt (key l : List Char) : Bool :=
  match dropPref ('"' :: key ++ ['"']) l with
  | some rest => wsColon rest
  | none => false

/-- `pattern.search(line)`: the pattern matches at some position. -/
def searchPat (key : List Char) : List Char → Bool
  | [] => false
  | c :: r => matchAt key (c :: r) || searchPat key r

/-- A line of the source file matches `"<key>"` followed by optional
whitespace and a colon, at any position of the line. -/
def lineMatches (key line : List Char) : Bool := searchPat key line

/-- The scanning loop of `find_line_number`: the 1-based index of the first
matching line (`for i, line in enumerate(lines): ... return i + 1`). -/
def findMatchLoop (key : List Char) : List (List Char) → Nat → Option Nat
  | [], _ => none
  | line :: rest, n =>
    if lineMatches key line then some n else findMatchLoop key rest (n + 1)

/-- `find_line_number(file_path, json_path)` (lines 106-138).  The file is
modelled as `none` when it cannot be read (the bare `except` returns
`None`) and `some lines` otherwise (`f.readlines()`).  Python returns
`None` for an empty or `"/"` path, splits the path on `/` dropping empty
segments, returns `None` when no segment remains, and otherwise reports
the first line matching the first segment only. -/
def find_line_number (file : Option (List (List Char))) (json_path : List Char) :
    Option Nat :=
  if json_path = [] ∨ json_path = ['/'] then none
  else
    match pathParts json_path with
    | [] => none
    | key :: _ =>
      match file with
      | none => none
      | some lines => findMatchLoop key lines 1

theorem findMatchLoop_none (key : List Char) (lines : List (List Char)) (n : Nat) :
    findMatchLoop key lines n = none ↔
      ∀ ln ∈ lines, lineMatches key ln = false := by
  induction lines generalizing n with
  | nil => simp [findMatchLoop]
  | cons a t ih =>
    simp only [findMatchLoop]
    split
    · next hm => simp [List.forall_mem_cons, hm]
    · next hm =>
      rw [ih (n + 1)]
      simp [List.forall_mem_cons, Bool.not_eq_true] at hm ⊢
      simp [hm]

theorem findMatchLoop_some (key : List Char) (lines : List (List Char)) (n m : Nat)
    (h : findMatchLoop key lines n = some m) :
    n ≤ m ∧ ∃ ln, lines[m - n]? = some ln ∧ lineMatches key ln = true ∧
      ∀ j ln', j < m - n → lines[j]? = some ln' → lineMatches key ln' = false := by
  induction lines generalizing n with
  | nil => simp [findMatchLoop] at h
  | cons a t ih =>
    simp only [findMatchLoop] at h
    split at h
    · next hm =>
      cases h
      refine ⟨le_refl _, a, ?_, hm, ?_⟩
      · simp
      · intro j ln' hj
        omega
    · next hm =>
      obtain ⟨hnm, ln, hget, hln, hmin⟩ := ih (n + 1) h
      refine ⟨by omega, ln, ?_, hln, ?_⟩
      · have he : m - n = (m - (n + 1)) + 1 := by omega
        rw [he]
        simpa using hget
      · intro j ln' hj hget'
        cases j with
        | zero =>
          simp only [List.getElem?_cons_zero, Option.some.injEq] at hget'
          subst hget'
          simpa [Bool.not_eq_true] using hm
        | succ k =>
          apply hmin k ln' (by omega)
          simpa using hget'

/-- `find_line_number` in terms of the first path segment: the early string
tests `json_path == ""` / `json_path == "/"` coincide with the segment
list being empty. -/
theorem find_line_number_spec (file : Option (List (List Char))) (p : List Char) :
    find_line_number file p =
      match pathParts p with
      | [] => none
      | key :: _ => file.bind fun lines => findMatchLoop key lines 1 := by
  unfold find_line_number
  split
  · next hp =>
    have h0 : pathParts p = [] := by
      rcases hp with rfl | rfl <;> decide
    rw [h0]
  · rcases hpp : pathParts p with _ | ⟨key, rest⟩ <;>
      cases file <;> simp [hpp]

/-- C5: `find_line_number` returns the 1-based index of the first line
matching `"<first segment>"` plus optional whitespace and a colon; it
returns `none` when the segment list is empty, when the file cannot be
read, or when no line matches; and the result depends only on the first
path segment. -/
theorem C5_find_line_number (file : Option (List (List Char))) (p : List Char) :
    (pathParts p = [] → find_line_number file p = none) ∧
    (file = none → find_line_number file p = none) ∧
    (∀ lines key rest, file = some lines → pathParts p = key :: rest →
      ((find_line_number file p = none ↔
          ∀ ln ∈ lines, lineMatches key ln = false) ∧
       (∀ n, find_line_number file p = some n →
          1 ≤ n ∧ ∃ ln, lines[n - 1]? = some ln ∧ lineMatches key ln = true ∧
            ∀ j ln', j < n - 1 → lines[j]? = some ln' →
              lineMatches key ln' = false))) ∧
    (∀ q, (pathParts q).head? = (pathParts p).head? →
      find_line_number file q = find_line_number file p) := by
  refine ⟨?_, ?_, ?_, ?_⟩
  · intro h
    rw [find_line_number_spec, h]
  · rintro rfl
    rw [find_line_number_spec]
    rcases hpp : pathParts p with _ | ⟨key, rest⟩ <;> simp
  · intro lines key rest hfile hpp
    subst hfile
    rw [find_line_number_spec, hpp]
    constructor
    · simpa using findMatchLoop_none key lines 1
    · intro n h
      simp only [Option.bind_eq_bind, Option.some_bind] at h
      exact findMatchLoop_some key lines 1 n h
  · intro q hq
    rw [find_line_number_spec, find_line_number_spec]
    rcases hpq : pathParts q with _ | ⟨kq, rq⟩ <;>
      rcases hpp : pathParts p with _ | ⟨kp, rp⟩ <;>
        rw [hpq, hpp] at hq <;> simp_all

/-- Witness for C5 on a concrete file: for the pointer `/b/x` the locator
reports line 2, the line holding the top-level key `"b"`, ignoring the
second segment; and an unreadable file yields `none`. -/
theorem C5_find_line_number_witness :
    (find_line_number
        (some [['{'], ['"', 'b', '"', ' ', ':', '1'], ['}']])
        ['/', 'b', '/', 'x'] = none ↔
      ∀ ln ∈ [['{'], ['"', 'b', '"', ' ', ':', '1'], ['}']],
        lineMatches ['b'] ln = false) ∧
    find_line_number none ['/', 'b', '/', 'x'] = none :=
  ⟨((C5_find_line_number
        (some [['{'], ['"', 'b', '"', ' ', ':', '1'], ['}']])
        ['/', 'b', '/', 'x']).2.2.1
      [['{'], ['"', 'b', '"', ' ', ':', '1'], ['}']]
      ['b'] [['x']] rfl (by decide)).1,
   (C5_find_line_number none ['/', 'b', '/', 'x']).2.1 rfl⟩

/-! ### Validation runner (`main`, `validate_file`, `is_excluded`)

The runner is embedded relative to an environment describing what the
script reads from the file system: the glob listing of the schema
directory with each file's parse result, the two root-schema loads, the
resource trees, and the interface files.  Documents and validation errors
are abstract types `Doc` and `Err`; a validator is a function
`Doc → Option (List Err)` where `none` models `iter_errors` raising. -/

/-- Run phases of the validation runner state machine. -/
inductive Phase
  | LoadingSchemas
  | ValidatingResources
  | ValidatingInterfaces
deriving DecidableEq

/-- The URI forms a schema document is registered under:
`schema_file.as_uri()`, `./<name>`, and `/<name>` (lines 255-257).  For
plain file names the three string shapes are pairwise distinct, which the
distinct constructors reflect. -/
inductive UriForm
  | fileUri (name : List Char)
  | dotSlash (name : List Char)
  | slash (name : List Char)
deriving DecidableEq

/-- The file name a `UriForm` refers to. -/
def keyName : UriForm → List Char
  | .fileUri n => n
  | .dotSlash n => n
  | .slash n => n

/-- One dictionary assignment `schema_store[uri] = doc` together with the
phase in which it is executed.  `oid` is the identity of the stored Python
object: each `load_jsonc` call allocates a fresh object, so distinct loads
carry distinct `oid`s even when their contents are equal. -/
structure StoreWrite (Doc : Type) where
  phase : Phase
  key : UriForm
  oid : Nat
  doc : Doc
deriving DecidableEq

/-- Dictionary lookup over the write log: the value of the last assignment
to the key, as Python dict assignment replaces earlier values. -/
def lookupStore {Doc : Type} (evs : List (StoreWrite Doc)) (k : UriForm) :
    Option (Nat × Doc) :=
  ((evs.filter fun e => decide (e.key = k)).getLast?).map fun e => (e.oid, e.doc)

/-- The file name `pipeline.schema.json`. -/
def pipelineName : List Char :=
  ['p', 'i', 'p', 'e', 'l', 'i', 'n', 'e', '.',
    's', 'c', 'h', 'e', 'm', 'a', '.', 'j', 's', 'o', 'n']

/-- The file name `interface.schema.json`. -/
def interfaceName : List Char :=
  ['i', 'n', 't', 'e', 'r', 'f', 'a', 'c', 'e', '.',
    's', 'c', 'h', 'e', 'm', 'a', '.', 'j', 's', 'o', 'n']

/-- The `schema_store` writes of the schema-directory glob loop (lines
251-263): each successfully loaded schema file is registered under its
three URI forms; a file whose load raises is skipped with a warning.
`n` numbers the objects allocated by the preceding loads. -/
def globEvents {Doc : Type} : List (List Char × Option Doc) → Nat →
    List (StoreWrite Doc)
  | [], _ => []
  | (_, none) :: rest, n => globEvents rest n
  | (name, some d) :: rest, n =>
    ⟨.LoadingSchemas, .fileUri name, n, d⟩ ::
      ⟨.LoadingSchemas, .dotSlash name, n, d⟩ ::
        ⟨.LoadingSchemas, .slash name, n, d⟩ :: globEvents rest (n + 1)

/-- The number of objects allocated by the glob loop's successful loads. -/
def globCount {Doc : Type} : List (List Char × Option Doc) → Nat
  | [] => 0
  | (_, none) :: rest => globCount rest
  | (_, some _) :: rest => globCount rest + 1

/-- A file visited during resource validation: its resolved path (as path
components) and the result of `load_jsonc` (`none`: the load raised). -/
structure RFile (Doc : Type) where
  path : List (List Char)
  load : Option Doc
deriving DecidableEq

/-- A `--resource-dirs` argument: whether the directory exists, and the
files listed by `rglob("*.json")` and by `rglob("*.jsonc")`. -/
structure RDir (Doc : Type) where
  dirExists : Bool
  jsonFiles : List (RFile Doc)
  jsoncFiles : List (RFile Doc)
deriving DecidableEq

/-- A `--interface-files` argument. -/
structure IFile (Doc : Type) where
  path : List (List Char)
  fileExists : Bool
  load : Option Doc
deriving DecidableEq

/-- The environment of one run of `main`: what the script reads from the
file system and the behaviour of the validators built by
`create_validator`. -/
structure Env (Doc Err : Type) where
  schemaGlob : List (List Char × Option Doc)
  pipelineLoad : Option Doc
  pipelineValidator : Doc → Option (List Err)
  excludeDirs : List (List (List Char))
  resourceDirs : List (RDir Doc)
  interfaceSchemaExists : Bool
  interfaceSchemaLoad : Option Doc
  interfaceValidator : Doc → Option (List Err)
  interfaceFiles : List (IFile Doc)

/-- `is_excluded(file_path)` (lines 276-285): `file_path.relative_to(e)`
succeeds exactly when the resolved exclude path `e` is a component-wise
prefix of the resolved file path. -/
def is_excluded (excludePaths : List (List (List Char)))
    (path : List (List Char)) : Bool :=
  excludePaths.any fun e => e.isPrefixOf path

/-- One `::error` annotation emitted for a failing file: a schema
validation error, or the single synthetic annotation printed by the
`except` handler. -/
inductive Annot (Err : Type)
  | schemaErr (e : Err)
  | exnErr
deriving DecidableEq

/-- `validate_file(file_path, validator)` (lines 141-172): load the file,
list the validator's errors, print an annotation for each of
`errors[:10]` and return `False`; return `True` when there are no errors;
any exception raised while loading or iterating errors is caught and
converted into one synthetic annotation with result `False`. -/
def validate_file {Doc Err : Type} (load : Option Doc)
    (validator : Doc → Option (List Err)) : Bool × List (Annot Err) :=
  match load with
  | none => (false, [.exnErr])
  | some data =>
    match validator data with
    | none => (false, [.exnErr])
    | some errors =>
      if errors.isEmpty then (true, [])
      else (false, (errors.take 10).map .schemaErr)

/-- The per-file outcome recorded by the runner. -/
structure Report (Err : Type) where
  path : List (List Char)
  success : Bool
  annots : List (Annot Err)
deriving DecidableEq

/-- Validation of the visited files of one resource directory: excluded
files are skipped before validation; every other file is validated, its
report recorded, and a failure clears `all_valid` without stopping the
loop. -/
def processList {Doc Err : Type} (excl : List (List (List Char)))
    (vd : Doc → Option (List Err)) : List (RFile Doc) → Bool × List (Report Err)
  | [] => (true, [])
  | f :: rest =>
    if is_excluded excl f.path then processList excl vd rest
    else
      ((validate_file f.load vd).1 && (processList excl vd rest).1,
        ⟨f.path, (validate_file f.load vd).1, (validate_file f.load vd).2⟩ ::
          (processList excl vd rest).2)

/-- The `ValidatingResources` phase (lines 287-307): a nonexistent
directory is skipped with a warning; in each directory the `*.json` files
are visited, then the `*.jsonc` files. -/
def runResources {Doc Err : Type} (excl : List (List (List Char)))
    (vd : Doc → Option (List Err)) : List (RDir Doc) → Bool × List (Report Err)
  | [] => (true, [])
  | d :: rest =>
    ((if d.dirExists then (processList excl vd (d.jsonFiles ++ d.jsoncFiles)).1
        else true) &&
        (runResources excl vd rest).1,
      (if d.dirExists then (processList excl vd (d.jsonFiles ++ d.jsoncFiles)).2
        else []) ++
        (runResources excl vd rest).2)

/-- The `ValidatingInterfaces` loop (lines 319-327): a missing interface
file is skipped with a warning.  Note that `is_excluded` is not consulted
here. -/
def runInterfaces {Doc Err : Type} (vd : Doc → Option (List Err)) :
    List (IFile Doc) → Bool × List (Report Err)
  | [] => (true, [])
  | f :: rest =>
    if f.fileExists then
      ((validate_file f.load vd).1 && (runInterfaces vd rest).1,
        ⟨f.path, (validate_file f.load vd).1, (validate_file f.load vd).2⟩ ::
          (runInterfaces vd rest).2)
    else runInterfaces vd rest

/-- The observable outcome of one run of `main`: the `schema_store` write
log, the per-file reports in order, whether the run was terminated by an
uncaught exception (the Python interpreter then exits with status 1), and
the exit code. -/
structure Trace (Doc Err : Type) where
  events : List (StoreWrite Doc)
  reports : List (Report Err)
  crashed : Bool
  exitCode : Nat
deriving DecidableEq

/-- `main()` (lines 210-334).  `LoadingSchemas`: the glob loop registers
each schema under three URI forms; `pipeline.schema.json` is then loaded a
second time — an exception here is uncaught and terminates the run — and
re-registered under its file-URI (line 269) as a fresh object.
`ValidatingResources`: every visited non-excluded file is validated.
`ValidatingInterfaces`: when `interface.schema.json` exists it is loaded
(line 313, outside any handler, so a parse failure terminates the run
after the resource reports were already produced), registered under its
file-URI (line 315), and each existing interface file is validated.
Exit code 0 iff every validation succeeded. -/
def runMain {Doc Err : Type} (env : Env Doc Err) : Trace Doc Err :=
  match env.pipelineLoad with
  | none => ⟨globEvents env.schemaGlob 0, [], true, 1⟩
  | some pdoc =>
    if env.interfaceSchemaExists then
      match env.interfaceSchemaLoad with
      | none =>
        ⟨globEvents env.schemaGlob 0 ++
            [⟨.LoadingSchemas, .fileUri pipelineName, globCount env.schemaGlob,
              pdoc⟩],
          (runResources env.excludeDirs env.pipelineValidator env.resourceDirs).2,
          true, 1⟩
      | some idoc =>
        ⟨globEvents env.schemaGlob 0 ++
            [⟨.LoadingSchemas, .fileUri pipelineName, globCount env.schemaGlob,
              pdoc⟩,
             ⟨.ValidatingInterfaces, .fileUri interfaceName,
              globCount env.schemaGlob + 1, idoc⟩],
          (runResources env.excludeDirs env.pipelineValidator env.resourceDirs).2 ++
            (runInterfaces env.interfaceValidator env.interfaceFiles).2,
          false,
          if (runResources env.excludeDirs env.pipelineValidator
                env.resourceDirs).1 &&
              (runInterfaces env.interfaceValidator env.interfaceFiles).1
            then 0 else 1⟩
    else
      ⟨globEvents env.schemaGlob 0 ++
          [⟨.LoadingSchemas, .fileUri pipelineName, globCount env.schemaGlob,
            pdoc⟩],
        (runResources env.excludeDirs env.pipelineValidator env.resourceDirs).2,
        false,
        if (runResources env.excludeDirs env.pipelineValidator
              env.resourceDirs).1
          then 0 else 1⟩

/-- A concrete run (documents and errors both numbered by `Nat`): the
schema directory holds a pipeline schema (content `0`) and an interface
schema (content `1`), both parse, there are no resource or interface
files, and nothing fails. -/
def envInterface : Env Nat Nat :=
  { schemaGlob := [(pipelineName, some 0), (interfaceName, some 1)]
    pipelineLoad := some 0
    pipelineValidator := fun _ => some []
    excludeDirs := []
    resourceDirs := []
    interfaceSchemaExists := true
    interfaceSchemaLoad := some 1
    interfaceValidator := fun _ => some []
    interfaceFiles := [] }

/-- A concrete run whose pipeline schema is missing or unparseable. -/
def envNoPipeline : Env Nat Nat :=
  { schemaGlob := []
    pipelineLoad := none
    pipelineValidator := fun _ => some []
    excludeDirs := []
    resourceDirs := [⟨true, [⟨[['a', '.', 'j', 's', 'o', 'n']], some 2⟩], []⟩]
    interfaceSchemaExists := false
    interfaceSchemaLoad := none
    interfaceValidator := fun _ => some []
    interfaceFiles := [] }

/-- A resolved path lying under the excluded directory `ex`. -/
def excludedPathEx : List (List Char) := [['e', 'x'], ['i', '.', 'j', 's', 'o', 'n']]

/-- A concrete run whose only interface file lies under the excluded
directory `ex` and whose interface validation raises. -/
def envIfaceExcluded : Env Nat Nat :=
  { schemaGlob := [(pipelineName, some 0), (interfaceName, some 1)]
    pipelineLoad := some 0
    pipelineValidator := fun _ => some []
    excludeDirs := [[['e', 'x']]]
    resourceDirs := []
    interfaceSchemaExists := true
    interfaceSchemaLoad := some 1
    interfaceValidator := fun _ => none
    interfaceFiles := [⟨excludedPathEx, true, some 2⟩] }

/-- A concrete run with one unparseable resource file under the excluded
directory `ex`. -/
def envResExcluded : Env Nat Nat :=
  { schemaGlob := [(pipelineName, some 0)]
    pipelineLoad := some 0
    pipelineValidator := fun _ => some []
    excludeDirs := [[['e', 'x']]]
    resourceDirs := [⟨true, [⟨excludedPathEx, none⟩], []⟩]
    interfaceSchemaExists := false
    interfaceSchemaLoad := none
    interfaceValidator := fun _ => some []
    interfaceFiles := [] }

/-- A concrete run whose pipeline schema parses but whose interface schema
file exists and fails to parse. -/
def envIfaceBroken : Env Nat Nat :=
  { schemaGlob := [(pipelineName, some 0), (interfaceName, none)]
    pipelineLoad := some 0
    pipelineValidator := fun _ => some []
    excludeDirs := []
    resourceDirs := []
    interfaceSchemaExists := true
    interfaceSchemaLoad := none
    interfaceValidator := fun _ => some []
    interfaceFiles := [] }

/-- Every write performed by the schema-directory glob loop is in the
`LoadingSchemas` phase. -/
theorem globEvents_phase {Doc : Type} (g : List (List Char × Option Doc)) (n : Nat) :
    ∀ ev ∈ globEvents g n, ev.phase = Phase.LoadingSchemas := by
  induction g generalizing n with
  | nil => simp [globEvents]
  | cons a rest ih =>
    rcases a with ⟨name, _ | d⟩
    · simpa [globEvents] using ih n
    · intro ev hev
      simp only [globEvents, List.mem_cons] at hev
      rcases hev with rfl | rfl | rfl | hev
      · rfl
      · rfl
      · rfl
      · exact ih (n + 1) ev hev

/-- The write log of a run, by cases on the two uncaught-exception sites:
either the pipeline reload raised and only the glob writes happened, or
the glob writes are followed by the pipeline re-registration, optionally
followed by the interface-schema registration. -/
theorem runMain_events_cases {Doc Err : Type} (env : Env Doc Err) :
    (env.pipelineLoad = none ∧
      (runMain env).events = globEvents env.schemaGlob 0) ∨
    (∃ pdoc, env.pipelineLoad = some pdoc ∧
      ((runMain env).events = globEvents env.schemaGlob 0 ++
          [⟨.LoadingSchemas, .fileUri pipelineName, globCount env.schemaGlob,
            pdoc⟩] ∨
        ∃ idoc, env.interfaceSchemaExists = true ∧
          env.interfaceSchemaLoad = some idoc ∧
          (runMain env).events = globEvents env.schemaGlob 0 ++
            [⟨.LoadingSchemas, .fileUri pipelineName, globCount env.schemaGlob,
              pdoc⟩,
             ⟨.ValidatingInterfaces, .fileUri interfaceName,
              globCount env.schemaGlob + 1, idoc⟩])) := by
  unfold runMain
  rcases hpl : env.pipelineLoad with _ | pdoc
  · exact Or.inl ⟨rfl, rfl⟩
  · right
    refine ⟨pdoc, rfl, ?_⟩
    rcases hie : env.interfaceSchemaExists with _ | _
    · exact Or.inl rfl
    · rcases hil : env.interfaceSchemaLoad with _ | idoc
      · exact Or.inl rfl
      · exact Or.inr ⟨idoc, rfl, rfl, rfl⟩

/-- C2, counterexample: in a run whose interface schema file exists and
parses, `main` assigns `schema_store[interface_schema_uri]` at line 315,
after resource validation has completed — so the claim that no entry is
added or replaced once resource validation begins is false. -/
theorem C2_registry_counterexample :
    ¬ (∀ ev ∈ (runMain envInterface).events, ev.phase = Phase.LoadingSchemas) := by
  decide

/-- C2, amended: the write log of the schema registry contains no
deletions, and every write happens during `LoadingSchemas` except the
single re-registration of the interface schema under its file-URI at the
start of `ValidatingInterfaces`; in particular no write ever happens
during `ValidatingResources`. -/
theorem C2_registry_writes {Doc Err : Type} (env : Env Doc Err) :
    ∀ ev ∈ (runMain env).events,
      (ev.phase = Phase.LoadingSchemas ∨
        (ev.phase = Phase.ValidatingInterfaces ∧
          ev.key = UriForm.fileUri interfaceName)) ∧
      ev.phase ≠ Phase.ValidatingResources := by
  intro ev hev
  have hkey : ev.phase = Phase.LoadingSchemas ∨
      (ev.phase = Phase.ValidatingInterfaces ∧
        ev.key = UriForm.fileUri interfaceName) := by
    rcases runMain_events_cases env with ⟨_, he⟩ | ⟨pdoc, _, he | ⟨idoc, _, _, he⟩⟩
    · rw [he] at hev
      exact Or.inl (globEvents_phase _ 0 ev hev)
    · rw [he] at hev
      rcases List.mem_append.mp hev with h | h
      · exact Or.inl (globEvents_phase _ 0 ev h)
      · simp only [List.mem_singleton] at h
        subst h
        exact Or.inl rfl
    · rw [he] at hev
      rcases List.mem_append.mp hev with h | h
      · exact Or.inl (globEvents_phase _ 0 ev h)
      · simp only [List.mem_cons, List.not_mem_nil, or_false] at h
        rcases h with rfl | rfl
        · exact Or.inl rfl
        · exact Or.inr ⟨rfl, rfl⟩
  refine ⟨hkey, ?_⟩
  rcases hkey with h | ⟨h, _⟩ <;> simp [h]

/-- Witness for C2 (amended) at a concrete run: the final (interface
registration) event of `envInterface` is in the `ValidatingInterfaces`
phase and writes the interface schema's file-URI. -/
theorem C2_registry_writes_witness :
    ((⟨Phase.ValidatingInterfaces, UriForm.fileUri interfaceName, 3, 1⟩ :
        StoreWrite Nat).phase = Phase.LoadingSchemas ∨
      ((⟨Phase.ValidatingInterfaces, UriForm.fileUri interfaceName, 3, 1⟩ :
          StoreWrite Nat).phase = Phase.ValidatingInterfaces ∧
        (⟨Phase.ValidatingInterfaces, UriForm.fileUri interfaceName, 3, 1⟩ :
          StoreWrite Nat).key = UriForm.fileUri interfaceName)) ∧
    (⟨Phase.ValidatingInterfaces, UriForm.fileUri interfaceName, 3, 1⟩ :
        StoreWrite Nat).phase ≠ Phase.ValidatingResources :=
  C2_registry_writes envInterface
    ⟨Phase.ValidatingInterfaces, UriForm.fileUri interfaceName, 3, 1⟩ (by decide)

/-- C6: if the root (pipeline) schema fails to load — the file is missing
or fails to parse, both raising out of `load_jsonc` at line 267 — the run
terminates with exit code 1 (an uncaught Python exception) before any
resource file is validated, and no per-file report is produced. -/
theorem C6_fatal_root_schema {Doc Err : Type} (env : Env Doc Err)
    (h : env.pipelineLoad = none) :
    (runMain env).crashed = true ∧ (runMain env).exitCode = 1 ∧
      (runMain env).reports = [] := by
  unfold runMain
  rw [h]
  exact ⟨rfl, rfl, rfl⟩

/-- Witness for C6: a concrete run whose pipeline schema fails to load. -/
theorem C6_fatal_root_schema_witness :
    (runMain envNoPipeline).crashed = true ∧
      (runMain envNoPipeline).exitCode = 1 ∧
      (runMain envNoPipeline).reports = [] :=
  C6_fatal_root_schema envNoPipeline rfl

/-- C10: `validate_file` emits at most 10 structured annotations; for a
file whose validator yields the error list `errs`, the annotations are
exactly the first 10 errors in iteration order, while the returned
pass/fail status is `errs = []`, determined by the full list — in
particular a file with more than 10 errors emits exactly 10 annotations
and still fails. -/
theorem C10_first_ten_annotations {Doc Err : Type} (load : Option Doc)
    (vd : Doc → Option (List Err)) :
    (validate_file load vd).2.length ≤ 10 ∧
    (∀ d errs, load = some d → vd d = some errs →
      (validate_file load vd).2 = (errs.take 10).map Annot.schemaErr ∧
        ((validate_file load vd).1 = true ↔ errs = [])) ∧
    (∀ d errs, load = some d → vd d = some errs → 10 < errs.length →
      (validate_file load vd).2.length = 10 ∧ (validate_file load vd).1 = false) := by
  refine ⟨?_, ?_, ?_⟩
  · rcases load with _ | d
    · simp [validate_file]
    · rcases hv : vd d with _ | errs
      · simp [validate_file, hv]
      · rcases herrs : errs.isEmpty with _ | _ <;>
          simp [validate_file, hv, herrs]
  · rintro d errs rfl hv
    rcases herrs : errs.isEmpty with _ | _
    · have hne : errs ≠ [] := by
        simpa [List.isEmpty_iff] using herrs
      simp [validate_file, hv, herrs, hne]
    · have he : errs = [] := by
        simpa [List.isEmpty_iff] using herrs
      subst he
      simp [validate_file, hv]
  · rintro d errs rfl hv hlen
    have hne : errs.isEmpty = false := by
      rcases errs with _ | ⟨a, t⟩
      · simp at hlen
      · simp
    have h10 : errs ≠ [] := by
      simpa [List.isEmpty_iff] using hne
    constructor
    · simp [validate_file, hv, hne]
      omega
    · simp [validate_file, hv, hne]

/-- Witness for C10: a file with 12 validation errors emits exactly 10
annotations and fails. -/
theorem C10_first_ten_annotations_witness :
    (validate_file (some (0 : Nat))
        (fun _ => some [1, 2, 3, 4, 5, 6, 7, 8, 9, 10, 11, 12])).2.length = 10 ∧
    (validate_file (some (0 : Nat))
        (fun _ => some [1, 2, 3, 4, 5, 6, 7, 8, 9, 10, 11, 12])).1 = false :=
  (C10_first_ten_annotations (some 0)
      (fun _ => some [1, 2, 3, 4, 5, 6, 7, 8, 9, 10, 11, 12])).2.2
    0 [1, 2, 3, 4, 5, 6, 7, 8, 9, 10, 11, 12] rfl rfl (by decide)

/-- No report produced during resource validation concerns an excluded
path: `is_excluded` is checked before `validate_file` is called. -/
theorem processList_not_excluded {Doc Err : Type} (excl : List (List (List Char)))
    (vd : Doc → Option (List Err)) (files : List (RFile Doc)) :
    ∀ r ∈ (processList excl vd files).2, is_excluded excl r.path = false := by
  induction files with
  | nil => simp [processList]
  | cons f rest ih =>
    intro r hr
    by_cases hx : is_excluded excl f.path = true
    · simp only [processList, hx, if_true] at hr
      exact ih r hr
    · simp only [processList, hx, if_false] at hr
      rcases List.mem_cons.mp hr with rfl | hr
      · simpa [Bool.not_eq_true] using hx
      · exact ih r hr

theorem runResources_not_excluded {Doc Err : Type} (excl : List (List (List Char)))
    (vd : Doc → Option (List Err)) (dirs : List (RDir Doc)) :
    ∀ r ∈ (runResources excl vd dirs).2, is_excluded excl r.path = false := by
  induction dirs with
  | nil => simp [runResources]
  | cons d rest ih =>
    intro r hr
    simp only [runResources] at hr
    rcases List.mem_append.mp hr with h | h
    · rcases hde : d.dirExists with _ | _
      · rw [hde] at h
        simp at h
      · rw [hde] at h
        simp only [if_true] at h
        exact processList_not_excluded excl vd _ r h
    · exact ih r h

/-- Removing the files at path `p` from one resource directory listing. -/
def eraseDirFile {Doc : Type} (p : List (List Char)) (d : RDir Doc) : RDir Doc :=
  { d with jsonFiles := d.jsonFiles.filter fun f => !decide (f.path = p)
           jsoncFiles := d.jsoncFiles.filter fun f => !decide (f.path = p) }

/-- Removing the files at path `p` from every resource directory of the
environment (the interface files and everything else are untouched). -/
def eraseResFile {Doc Err : Type} (p : List (List Char)) (env : Env Doc Err) :
    Env Doc Err :=
  { env with resourceDirs := env.resourceDirs.map (eraseDirFile p) }

theorem processList_erase {Doc Err : Type} (excl : List (List (List Char)))
    (vd : Doc → Option (List Err)) (p : List (List Char))
    (h : is_excluded excl p = true) (files : List (RFile Doc)) :
    processList excl vd (files.filter fun f => !decide (f.path = p)) =
      processList excl vd files := by
  induction files with
  | nil => rfl
  | cons f rest ih =>
    by_cases hfp : f.path = p
    · have hx : is_excluded excl f.path = true := by rw [hfp]; exact h
      simp [List.filter_cons, hfp, processList, hx, h, ih]
    · simp [List.filter_cons, hfp, processList, ih]

theorem runResources_erase {Doc Err : Type} (excl : List (List (List Char)))
    (vd : Doc → Option (List Err)) (p : List (List Char))
    (h : is_excluded excl p = true) (dirs : List (RDir Doc)) :
    runResources excl vd (dirs.map (eraseDirFile p)) =
      runResources excl vd dirs := by
  induction dirs with
  | nil => rfl
  | cons d rest ih =>
    have hp : processList excl vd
        ((d.jsonFiles.filter fun f => !decide (f.path = p)) ++
          (d.jsoncFiles.filter fun f => !decide (f.path = p))) =
        processList excl vd (d.jsonFiles ++ d.jsoncFiles) := by
      rw [← List.filter_append]
      exact processList_erase excl vd p h _
    simp only [List.map_cons, runResources, eraseDirFile, ih, hp]

/-- C7, counterexample: the claim quantifies over every file, but interface
files are validated without consulting `is_excluded` (lines 319-327): an
interface file lying under an excluded directory still yields a report,
and when it fails it still drives the exit code to 1. -/
theorem C7_excluded_counterexample :
    is_excluded envIfaceExcluded.excludeDirs excludedPathEx = true ∧
    (∃ r ∈ (runMain envIfaceExcluded).reports, r.path = excludedPathEx) ∧
    (runMain envIfaceExcluded).exitCode = 1 := by decide

/-- C7, amended: for every file visited during the resource-directory
traversal whose resolved path lies under an excluded directory, no report
is produced and the file has no effect on the run's outcome (removing it
from the tree leaves the whole trace unchanged); interface files, however,
are not subject to exclusion. -/
theorem C7_excluded_resources {Doc Err : Type} (env : Env Doc Err)
    (p : List (List Char)) (h : is_excluded env.excludeDirs p = true) :
    (∀ r ∈ (runResources env.excludeDirs env.pipelineValidator
        env.resourceDirs).2, r.path ≠ p) ∧
    runMain (eraseResFile p env) = runMain env := by
  constructor
  · intro r hr hrp
    have hne := runResources_not_excluded env.excludeDirs env.pipelineValidator
      env.resourceDirs r hr
    rw [hrp, h] at hne
    exact Bool.true_eq_false.mp hne
  · have he : runResources env.excludeDirs env.pipelineValidator
        (env.resourceDirs.map (eraseDirFile p)) =
        runResources env.excludeDirs env.pipelineValidator env.resourceDirs :=
      runResources_erase env.excludeDirs env.pipelineValidator p h env.resourceDirs
    unfold runMain eraseResFile
    rcases env.pipelineLoad with _ | pdoc
    · rfl
    · rcases env.interfaceSchemaExists with _ | _ <;>
        rcases env.interfaceSchemaLoad with _ | idoc <;>
          simp [he]

/-- Witness for C7 (amended): a concrete run with one schema-invalid
resource file under the excluded directory: it yields no report and
deleting it changes nothing. -/
theorem C7_excluded_resources_witness :
    (∀ r ∈ (runResources envResExcluded.excludeDirs
        envResExcluded.pipelineValidator envResExcluded.resourceDirs).2,
      r.path ≠ excludedPathEx) ∧
    runMain (eraseResFile excludedPathEx envResExcluded) =
      runMain envResExcluded :=
  C7_excluded_resources envResExcluded excludedPathEx (by decide)

/-- The number of files visited and not excluded in the existing resource
directories. -/
def resourceFileCount {Doc : Type} (excl : List (List (List Char))) :
    List (RDir Doc) → Nat
  | [] => 0
  | d :: rest =>
    (if d.dirExists then
        ((d.jsonFiles ++ d.jsoncFiles).filter fun f =>
          !is_excluded excl f.path).length
      else 0) + resourceFileCount excl rest

/-- The number of files a non-crashing run validates: the non-excluded
resource files of existing directories, plus — when the interface schema
exists — the existing interface files. -/
def processedCount {Doc Err : Type} (env : Env Doc Err) : Nat :=
  resourceFileCount env.excludeDirs env.resourceDirs +
    if env.interfaceSchemaExists then
      (env.interfaceFiles.filter fun f => f.fileExists).length
    else 0

theorem processList_length {Doc Err : Type} (excl : List (List (List Char)))
    (vd : Doc → Option (List Err)) (files : List (RFile Doc)) :
    (processList excl vd files).2.length =
      (files.filter fun f => !is_excluded excl f.path).length := by
  induction files with
  | nil => rfl
  | cons f rest ih =>
    by_cases hx : is_excluded excl f.path = true
    · simp [processList, List.filter_cons, hx, ih]
    · have hx' : is_excluded excl f.path = false := by
        simpa [Bool.not_eq_true] using hx
      simp [processList, List.filter_cons, hx', ih]

theorem runResources_length {Doc Err : Type} (excl : List (List (List Char)))
    (vd : Doc → Option (List Err)) (dirs : List (RDir Doc)) :
    (runResources excl vd dirs).2.length = resourceFileCount excl dirs := by
  induction dirs with
  | nil => rfl
  | cons d rest ih =>
    rcases hde : d.dirExists with _ | _ <;>
      simp [runResources, resourceFileCount, hde, ih, processList_length]

theorem runInterfaces_length {Doc Err : Type} (vd : Doc → Option (List Err))
    (ifs : List (IFile Doc)) :
    (runInterfaces vd ifs).2.length =
      (ifs.filter fun f => f.fileExists).length := by
  induction ifs with
  | nil => rfl
  | cons f rest ih =>
    rcases hfe : f.fileExists with _ | _ <;>
      simp [runInterfaces, List.filter_cons, hfe, ih]

/-- C9, counterexample: the claim's propagation policy ("only the fatal
root-schema failure propagates to process termination") is false: when
`interface.schema.json` exists but fails to parse, `load_jsonc` at line
313 raises outside any handler and the run is terminated although the
root (pipeline) schema loaded successfully. -/
theorem C9_propagation_counterexample :
    (runMain envIfaceBroken).crashed = true ∧
      envIfaceBroken.pipelineLoad ≠ none := by decide

/-- C9, amended: an exception while loading or validating an individual
resource or interface file is caught within that file's handling and
recorded as a single synthetic failure, every remaining file is still
processed (a non-crashing run records exactly one report per visited
file), and the only failures that propagate to process termination are
the fatal root-schema failure and a parse failure of an existing
interface schema file. -/
theorem C9_error_containment {Doc Err : Type} (env : Env Doc Err) :
    ((runMain env).crashed = true →
      env.pipelineLoad = none ∨
        (env.interfaceSchemaExists = true ∧ env.interfaceSchemaLoad = none)) ∧
    (∀ vd : Doc → Option (List Err),
      validate_file (none : Option Doc) vd = (false, [Annot.exnErr]) ∧
        ∀ d, vd d = none → validate_file (some d) vd = (false, [Annot.exnErr])) ∧
    ((runMain env).crashed = false →
      (runMain env).reports.length = processedCount env) := by
  refine ⟨?_, ?_, ?_⟩
  · unfold runMain
    rcases hpl : env.pipelineLoad with _ | pdoc
    · intro _
      exact Or.inl rfl
    · rcases hie : env.interfaceSchemaExists with _ | _
      · simp
      · rcases hil : env.interfaceSchemaLoad with _ | idoc
        · intro _
          exact Or.inr ⟨rfl, rfl⟩
        · simp
  · intro vd
    exact ⟨rfl, fun d hd => by simp [validate_file, hd]⟩
  · unfold runMain
    rcases hpl : env.pipelineLoad with _ | pdoc
    · simp
    · rcases hie : env.interfaceSchemaExists with _ | _
      · intro _
        simp [processedCount, hie, runResources_length]
      · rcases hil : env.interfaceSchemaLoad with _ | idoc
        · simp
        · intro _
          simp [processedCount, hie, runResources_length, runInterfaces_length]

/-- Witness for C9 (amended): applying the containment theorem to the
concrete crashing run `envIfaceBroken` locates the crash at one of the two
fatal sites. -/
theorem C9_error_containment_witness :
    envIfaceBroken.pipelineLoad = none ∨
      (envIfaceBroken.interfaceSchemaExists = true ∧
        envIfaceBroken.interfaceSchemaLoad = none) :=
  (C9_error_containment envIfaceBroken).1 (by decide)

/-! ### Registry aliasing (C8) -/

theorem lookupStore_cons_ne {Doc : Type} (e : StoreWrite Doc)
    (evs : List (StoreWrite Doc)) (k : UriForm) (h : ¬ e.key = k) :
    lookupStore (e :: evs) k = lookupStore evs k := by
  simp [lookupStore, List.filter_cons, h]

theorem lookupStore_cons_match_rest_empty {Doc : Type} (e : StoreWrite Doc)
    (evs : List (StoreWrite Doc)) (k : UriForm) (hk : e.key = k)
    (hrest : evs.filter (fun x => decide (x.key = k)) = []) :
    lookupStore (e :: evs) k = some (e.oid, e.doc) := by
  simp [lookupStore, List.filter_cons, hk, hrest]

theorem optionMap_or {α β : Type} (f : α → β) (x y : Option α) :
    (x.or y).map f = (x.map f).or (y.map f) := by
  cases x <;> rfl

theorem lookupStore_singleton_match {Doc : Type} (e : StoreWrite Doc)
    (k : UriForm) (hk : e.key = k) :
    lookupStore [e] k = some (e.oid, e.doc) := by
  simp [lookupStore, List.filter_cons, hk]

theorem lookupStore_singleton_ne {Doc : Type} (e : StoreWrite Doc)
    (k : UriForm) (hk : ¬ e.key = k) :
    lookupStore [e] k = none := by
  simp [lookupStore, List.filter_cons, hk]

theorem filterStore_singleton_ne {Doc : Type} (e : StoreWrite Doc) (k : UriForm)
    (hk : ¬ e.key = k) :
    ([e] : List (StoreWrite Doc)).filter (fun x => decide (x.key = k)) = [] := by
  simp [List.filter_cons, hk]

theorem lookupStore_append {Doc : Type} (evs1 evs2 : List (StoreWrite Doc))
    (k : UriForm) :
    lookupStore (evs1 ++ evs2) k =
      (lookupStore evs2 k).or (lookupStore evs1 k) := by
  unfold lookupStore
  rw [List.filter_append, List.getLast?_append, optionMap_or]

/-- In a list of pairs with no duplicate first components, the first
component determines the second. -/
theorem nodup_fst_inj {α β : Type} {g : List (α × β)}
    (hnd : (g.map Prod.fst).Nodup) {a : α} {b c : β}
    (h1 : (a, b) ∈ g) (h2 : (a, c) ∈ g) : b = c := by
  induction g with
  | nil => simp at h1
  | cons x rest ih =>
    simp only [List.map_cons, List.nodup_cons] at hnd
    rcases List.mem_cons.mp h1 with h1' | h1'
    · rcases List.mem_cons.mp h2 with h2' | h2'
      · rw [← h1'] at h2'
        injection h2' with _ h
        exact h.symm
      · exfalso
        apply hnd.1
        rw [← h1']
        simpa using List.mem_map_of_mem Prod.fst h2'
    · rcases List.mem_cons.mp h2 with h2' | h2'
      · exfalso
        apply hnd.1
        rw [← h2']
        simpa using List.mem_map_of_mem Prod.fst h1'
      · exact ih hnd.2 h1' h2'

/-- A name absent from the glob listing has no write in the glob events,
under any of its URI forms. -/
theorem globEvents_filter_notmem {Doc : Type} {name : List Char}
    (g : List (List Char × Option Doc)) (n : Nat)
    (hnm : name ∉ g.map Prod.fst) (k : UriForm) (hk : keyName k = name) :
    (globEvents g n).filter (fun e => decide (e.key = k)) = [] := by
  induction g generalizing n with
  | nil => rfl
  | cons a rest ih =>
    rcases a with ⟨nm, _ | d⟩
    · simp only [List.map_cons, List.mem_cons] at hnm
      push_neg at hnm
      simpa only [globEvents] using ih n hnm.2
    · simp only [List.map_cons, List.mem_cons] at hnm
      push_neg at hnm
      have hne : nm ≠ name := fun he => hnm.1 he.symm
      have hkey : ∀ u : UriForm, keyName u = nm → ¬ (u = k) := by
        intro u hu he
        exact hne (by rw [← hu, he, hk])
      have h1 : ¬ (UriForm.fileUri nm = k) := hkey _ rfl
      have h2 : ¬ (UriForm.dotSlash nm = k) := hkey _ rfl
      have h3 : ¬ (UriForm.slash nm = k) := hkey _ rfl
      simp [globEvents, List.filter_cons, h1, h2, h3, ih (n + 1) hnm.2]

/-- Looking the glob-loop writes up under any of the three URI forms of a
successfully loaded schema file returns that file's document. -/
theorem globEvents_lookup {Doc : Type} {g : List (List Char × Option Doc)}
    (hnd : (g.map Prod.fst).Nodup) {name : List Char} {d : Doc}
    (hmem : (name, some d) ∈ g) (k : UriForm) (hk : keyName k = name) (n : Nat) :
    ∃ i, lookupStore (globEvents g n) k = some (i, d) := by
  induction g generalizing n with
  | nil => simp at hmem
  | cons a rest ih =>
    rcases a with ⟨nm, od⟩
    simp only [List.map_cons, List.nodup_cons] at hnd
    rcases List.mem_cons.mp hmem with hh | ht
    · injection hh with he1 he2
      subst he1
      subst he2
      have hrest : (globEvents rest (n + 1)).filter
          (fun e => decide (e.key = k)) = [] :=
        globEvents_filter_notmem rest (n + 1) hnd.1 k hk
      cases k with
      | fileUri m =>
        have hm : m = name := hk
        subst hm
        refine ⟨n, ?_⟩
        simp only [globEvents]
        rw [lookupStore_cons_match_rest_empty]
        · rfl
        · simp [List.filter_cons, hrest]
      | dotSlash m =>
        have hm : m = name := hk
        subst hm
        refine ⟨n, ?_⟩
        simp only [globEvents]
        rw [lookupStore_cons_ne _ _ _ (by simp)]
        rw [lookupStore_cons_match_rest_empty]
        · rfl
        · simp [List.filter_cons, hrest]
      | slash m =>
        have hm : m = name := hk
        subst hm
        refine ⟨n, ?_⟩
        simp only [globEvents]
        rw [lookupStore_cons_ne _ _ _ (by simp),
          lookupStore_cons_ne _ _ _ (by simp)]
        rw [lookupStore_cons_match_rest_empty]
        · rfl
        · exact hrest
    · have hname : name ∈ rest.map Prod.fst := by
        simpa using List.mem_map_of_mem Prod.fst ht
      have hne : nm ≠ name := fun he => hnd.1 (he ▸ hname)
      rcases od with _ | d'
      · simpa only [globEvents] using ih hnd.2 ht n
      · have hkey : ∀ u : UriForm, keyName u = nm → ¬ (u = k) := by
          intro u hu he
          exact hne (by rw [← hu, he, hk])
        obtain ⟨i, hi⟩ := ih hnd.2 ht (n + 1)
        refine ⟨i, ?_⟩
        simp only [globEvents]
        rw [lookupStore_cons_ne _ _ _ (hkey (UriForm.fileUri nm) rfl),
          lookupStore_cons_ne _ _ _ (hkey (UriForm.dotSlash nm) rfl),
          lookupStore_cons_ne _ _ _ (hkey (UriForm.slash nm) rfl)]
        exact hi

/-- C8, counterexample: after `main` re-loads `pipeline.schema.json` at
line 267 and re-registers it under its file-URI at line 269, the file-URI
key holds a freshly allocated object while `./pipeline.schema.json` and
`/pipeline.schema.json` still hold the object registered by the glob loop:
the registry lookups no longer return one shared instance (the object
identities differ), although the contents are identical. -/
theorem C8_alias_counterexample :
    lookupStore (runMain envInterface).events (UriForm.fileUri pipelineName) ≠
      lookupStore (runMain envInterface).events (UriForm.dotSlash pipelineName) ∧
    (lookupStore (runMain envInterface).events
        (UriForm.fileUri pipelineName)).map Prod.snd =
      (lookupStore (runMain envInterface).events
        (UriForm.dotSlash pipelineName)).map Prod.snd := by decide

/-- C8, amended: after a schema file is registered, lookups by its
file-URI, `./<name>`, and `/<name>` forms all return a document with
identical content — under the determinism of re-reading the same file
(the re-loads of the pipeline and interface schemas yield the glob loop's
contents) — though the file-URI entry of those two schemas may be a
distinct, freshly allocated object of equal content. -/
theorem C8_registry_alias_content {Doc Err : Type} (env : Env Doc Err)
    (hnd : (env.schemaGlob.map Prod.fst).Nodup)
    (hp : (pipelineName, env.pipelineLoad) ∈ env.schemaGlob)
    (hi : env.interfaceSchemaExists = true →
      (interfaceName, env.interfaceSchemaLoad) ∈ env.schemaGlob)
    (name : List Char) (d : Doc) (hmem : (name, some d) ∈ env.schemaGlob) :
    (∃ i, lookupStore (runMain env).events (UriForm.fileUri name) = some (i, d)) ∧
    (∃ i, lookupStore (runMain env).events (UriForm.dotSlash name) = some (i, d)) ∧
    (∃ i, lookupStore (runMain env).events (UriForm.slash name) = some (i, d)) := by
  rcases runMain_events_cases env with ⟨hpl, he⟩ |
    ⟨pdoc, hpl, he | ⟨idoc, hie, hil, he⟩⟩
  · rw [he]
    exact ⟨globEvents_lookup hnd hmem (UriForm.fileUri name) rfl 0,
      globEvents_lookup hnd hmem (UriForm.dotSlash name) rfl 0,
      globEvents_lookup hnd hmem (UriForm.slash name) rfl 0⟩
  · rw [he]
    refine ⟨?_, ?_, ?_⟩
    · by_cases hnp : name = pipelineName
      · subst hnp
        rw [hpl] at hp
        have hpd : some pdoc = some d := nodup_fst_inj hnd hp hmem
        injection hpd with hpd
        subst hpd
        refine ⟨globCount env.schemaGlob, ?_⟩
        rw [lookupStore_append, lookupStore_singleton_match _ _ rfl]
        rfl
      · obtain ⟨i, hg⟩ := globEvents_lookup hnd hmem (UriForm.fileUri name) rfl 0
        refine ⟨i, ?_⟩
        rw [lookupStore_append,
          lookupStore_singleton_ne _ _
            (fun hcon => hnp (UriForm.fileUri.inj hcon).symm),
          hg]
        rfl
    · obtain ⟨i, hg⟩ := globEvents_lookup hnd hmem (UriForm.dotSlash name) rfl 0
      refine ⟨i, ?_⟩
      rw [lookupStore_append, lookupStore_singleton_ne _ _ (by simp), hg]
      rfl
    · obtain ⟨i, hg⟩ := globEvents_lookup hnd hmem (UriForm.slash name) rfl 0
      refine ⟨i, ?_⟩
      rw [lookupStore_append, lookupStore_singleton_ne _ _ (by simp), hg]
      rfl
  · rw [he]
    have hpi : ¬ (pipelineName = interfaceName) := by decide
    have hip : ¬ (interfaceName = pipelineName) := by decide
    refine ⟨?_, ?_, ?_⟩
    · by_cases hnp : name = pipelineName
      · subst hnp
        rw [hpl] at hp
        have hpd : some pdoc = some d := nodup_fst_inj hnd hp hmem
        injection hpd with hpd
        subst hpd
        refine ⟨globCount env.schemaGlob, ?_⟩
        rw [lookupStore_append,
          lookupStore_cons_match_rest_empty _ _ _ rfl
            (filterStore_singleton_ne _ _
              (fun hcon => hip (UriForm.fileUri.inj hcon)))]
        rfl
      · by_cases hni : name = interfaceName
        · subst hni
          rw [hil] at hi
          have hid : some idoc = some d := nodup_fst_inj hnd (hi hie) hmem
          injection hid with hid
          subst hid
          refine ⟨globCount env.schemaGlob + 1, ?_⟩
          rw [lookupStore_append,
            lookupStore_cons_ne _ _ _
              (fun hcon => hpi (UriForm.fileUri.inj hcon)),
            lookupStore_singleton_match _ _ rfl]
          rfl
        · obtain ⟨i, hg⟩ := globEvents_lookup hnd hmem (UriForm.fileUri name) rfl 0
          refine ⟨i, ?_⟩
          rw [lookupStore_append,
            lookupStore_cons_ne _ _ _
              (fun hcon => hnp (UriForm.fileUri.inj hcon).symm),
            lookupStore_singleton_ne _ _
              (fun hcon => hni (UriForm.fileUri.inj hcon).symm),
            hg]
          rfl
    · obtain ⟨i, hg⟩ := globEvents_lookup hnd hmem (UriForm.dotSlash name) rfl 0
      refine ⟨i, ?_⟩
      rw [lookupStore_append, lookupStore_cons_ne _ _ _ (by simp),
        lookupStore_singleton_ne _ _ (by simp), hg]
      rfl
    · obtain ⟨i, hg⟩ := globEvents_lookup hnd hmem (UriForm.slash name) rfl 0
      refine ⟨i, ?_⟩
      rw [lookupStore_append, lookupStore_cons_ne _ _ _ (by simp),
        lookupStore_singleton_ne _ _ (by simp), hg]
      rfl

/-- Witness for C8 (amended): in the concrete run `envInterface` the
interface schema's three URI forms all hold the content loaded from
`interface.schema.json`. -/
theorem C8_registry_alias_content_witness :
    (∃ i, lookupStore (runMain envInterface).events
        (UriForm.fileUri interfaceName) = some (i, 1)) ∧
    (∃ i, lookupStore (runMain envInterface).events
        (UriForm.dotSlash interfaceName) = some (i, 1)) ∧
    (∃ i, lookupStore (runMain envInterface).events
        (UriForm.slash interfaceName) = some (i, 1)) :=
  C8_registry_alias_content envInterface (by decide) (by decide) (by decide)
    interfaceName 1 (by decide)

end MaaValidate
